import Mathlib

/-!
Verification development for the medvision-mcp repository.

Part 1 embeds the declared TypeScript interface contracts of
src/contracts/mcp-client.ts as field/method descriptor lists.
Part 2 models, from the specification text, the server-side components
(session store, retrieval engine, canvas sync coordinator) whose
implementation is not present in the repository, and proves the
spec-level properties about them.
-/

namespace MedVision

/-- A field of a TypeScript interface: its name, the type expression as
written in the source, and whether it is optional (declared with a
question mark). -/
structure TSField where
  name : String
  ty : String
  optional : Bool
deriving DecidableEq, Repr

/-- A method of a TypeScript interface: its name, parameter list and
declared return type, as written in the source. -/
structure TSMethod where
  name : String
  params : List TSField
  ret : String
deriving DecidableEq, Repr

/-- Embedding of interface AnalyzeRegionRequest,
src/contracts/mcp-client.ts lines 108 to 114. -/
def analyzeRegionRequestFields : List TSField :=
  [ ⟨"session_id", "string", false⟩,
    ⟨"region", "Region", false⟩,
    ⟨"question", "string", true⟩,
    ⟨"actions", "AnalysisAction[]", true⟩,
    ⟨"image_id", "string", true⟩ ]

/-- Embedding of interface AnalyzeRegionResponse,
src/contracts/mcp-client.ts lines 116 to 122. -/
def analyzeRegionResponseFields : List TSField :=
  [ ⟨"description", "string", true⟩,
    ⟨"segmentation", "Record<string, any>", true⟩,
    ⟨"measurements", "Record<string, any>", true⟩,
    ⟨"annotation_id", "string", true⟩,
    ⟨"confidence", "number", true⟩ ]

/-- Embedding of interface MCPError,
src/contracts/mcp-client.ts lines 227 to 231. -/
def mcpErrorFields : List TSField :=
  [ ⟨"code", "string", false⟩,
    ⟨"message", "string", false⟩,
    ⟨"details", "Record<string, any>", true⟩ ]

/-- Embedding of interface Region,
src/contracts/mcp-client.ts lines 18 to 22. -/
def regionFields : List TSField :=
  [ ⟨"type", "RegionType", false⟩,
    ⟨"coordinates", "number[] | number[][]", false⟩,
    ⟨"format", "'pixel' | 'relative'", false⟩ ]

/-- Embedding of interface MCPClient,
src/contracts/mcp-client.ts lines 238 to 268: every declared method with
its parameters and return type. -/
def mcpClientMethods : List TSMethod :=
  [ ⟨"connect", [⟨"serverUrl", "string", false⟩], "Promise<void>"⟩,
    ⟨"disconnect", [], "Promise<void>"⟩,
    ⟨"isConnected", [], "boolean"⟩,
    ⟨"createSession", [⟨"params", "CreateSessionRequest", true⟩],
      "Promise<CreateSessionResponse>"⟩,
    ⟨"getSessionStatus", [⟨"sessionId", "string", false⟩],
      "Promise<SessionStatus>"⟩,
    ⟨"addImage", [⟨"params", "AddImageRequest", false⟩],
      "Promise<AddImageResponse>"⟩,
    ⟨"analyzeImage", [⟨"params", "AnalyzeImageRequest", false⟩],
      "Promise<AnalyzeImageResponse>"⟩,
    ⟨"analyzeRegion", [⟨"params", "AnalyzeRegionRequest", false⟩],
      "Promise<AnalyzeRegionResponse>"⟩,
    ⟨"askImage", [⟨"params", "AskImageRequest", false⟩],
      "Promise<AskImageResponse>"⟩,
    ⟨"syncCanvasState", [⟨"params", "CanvasStateSync", false⟩],
      "Promise<void>"⟩,
    ⟨"pushToCanvas", [⟨"params", "PushToCanvasRequest", false⟩],
      "Promise<void>"⟩,
    ⟨"createAnnotation", [⟨"params", "CreateAnnotationRequest", false⟩],
      "Promise<AnnotationResponse>"⟩,
    ⟨"getAnnotations",
      [⟨"sessionId", "string", false⟩, ⟨"imageId", "string", true⟩],
      "Promise<AnnotationResponse[]>"⟩,
    ⟨"deleteAnnotation",
      [⟨"sessionId", "string", false⟩, ⟨"annotationId", "string", false⟩],
      "Promise<void>"⟩,
    ⟨"invokeAgent", [⟨"params", "InvokeAgentRequest", false⟩],
      "Promise<InvokeAgentResponse>"⟩,
    ⟨"subscribe",
      [⟨"resourceUri", "string", false⟩,
       ⟨"callback", "(update: ResourceUpdate) => void", false⟩],
      "() => void"⟩ ]

/-- Modelled from the spec: the tool-call surface listed in section 6 of
the specification (the server implementation is absent from the
repository; this list follows the spec text, for comparison with the
declared client contract). -/
def specToolSurface : List String :=
  [ "create_session", "add_image", "analyze_region", "create_annotation",
    "list_annotations", "push_to_canvas", "sync_canvas_state" ]

/-! ### Retrieval engine (spec section 4.2)

The Retrieval Fusion Engine implementation is absent from the
repository; the following definitions are modelled from the spec text
of sections 4.2, 5 and 7. -/

/-- Modelled from the spec: a reference case held in the Vector Index,
with the identifier of the case and its stored embedding vector. -/
structure RefCase where
  caseId : String
  emb : List ℚ
deriving DecidableEq, Repr

/-- Modelled from the spec: one entry of a ranked neighbor list, a
SimilarCase response artifact carrying the reference case identifier,
its distance to the query, and the insertion position of the reference
case in the index (exposed here to state the tie-break rule). -/
structure RankedEntry where
  caseId : String
  dist : ℚ
  insPos : Nat
deriving DecidableEq, Repr

/-- Modelled from the spec: squared Euclidean (L2) distance between two
embedding vectors, the distance used by the Vector Index. -/
def sqDist (u v : List ℚ) : ℚ :=
  (List.zipWith (fun a b => (a - b) ^ 2) u v).sum

/-- Ranking order on entries: strictly smaller distance first, ties
broken by insertion position of the reference case. -/
def rankLE (a b : RankedEntry) : Prop :=
  a.dist < b.dist ∨ (a.dist = b.dist ∧ a.insPos ≤ b.insPos)

instance : DecidableRel rankLE := by
  intro a b
  unfold rankLE
  infer_instance

instance : IsTotal RankedEntry rankLE := by
  constructor
  intro a b
  rcases lt_trichotomy a.dist b.dist with h | h | h
  · exact Or.inl (Or.inl h)
  · rcases Nat.le_total a.insPos b.insPos with h2 | h2
    · exact Or.inl (Or.inr ⟨h, h2⟩)
    · exact Or.inr (Or.inr ⟨h.symm, h2⟩)
  · exact Or.inr (Or.inl h)

instance : IsTrans RankedEntry rankLE := by
  constructor
  intro a b c hab hbc
  rcases hab with h1 | ⟨h1, h1p⟩
  · rcases hbc with h2 | ⟨h2, _⟩
    · exact Or.inl (h1.trans h2)
    · exact Or.inl (h2 ▸ h1)
  · rcases hbc with h2 | ⟨h2, h2p⟩
    · exact Or.inl (h1 ▸ h2)
    · exact Or.inr ⟨h1.trans h2, h1p.trans h2p⟩

/-- Modelled from the spec: step 3 of analyze_region, querying the
Vector Index for the top_k nearest neighbors of the query embedding q by
distance, sorted ascending, ties broken by insertion order of the
reference case (stable, deterministic), never by identifier hash. -/
def searchIndex (index : List RefCase) (q : List ℚ) (k : Nat) :
    List RankedEntry :=
  ((index.enum.map fun p => RankedEntry.mk p.2.caseId (sqDist q p.2.emb) p.1
    ).insertionSort rankLE).take k

theorem sqDist_nonneg (u v : List ℚ) : 0 ≤ sqDist u v := by
  induction u generalizing v with
  | nil => simp [sqDist]
  | cons a u ih =>
    cases v with
    | nil => simp [sqDist]
    | cons b v =>
      have h : sqDist (a :: u) (b :: v) = (a - b) ^ 2 + sqDist u v := by
        simp [sqDist]
      rw [h]
      exact add_nonneg (sq_nonneg _) (ih v)

theorem searchIndex_mem_dist (index : List RefCase) (q : List ℚ) (k : Nat)
    (e : RankedEntry) (he : e ∈ searchIndex index q k) : 0 ≤ e.dist := by
  unfold searchIndex at he
  have h1 := List.mem_of_mem_take he
  rw [List.mem_insertionSort] at h1
  obtain ⟨p, _, hp⟩ := List.mem_map.mp h1
  rw [← hp]
  exact sqDist_nonneg q p.2.emb

theorem searchIndex_sorted_rankLE (index : List RefCase) (q : List ℚ)
    (k : Nat) : (searchIndex index q k).Pairwise rankLE :=
  ((List.sorted_insertionSort rankLE _).sublist (List.take_sublist k _))

theorem searchIndex_insPos_nodup (index : List RefCase) (q : List ℚ)
    (k : Nat) :
    (searchIndex index q k).Pairwise (fun a b => a.insPos ≠ b.insPos) := by
  have hperm : List.Perm
      (((index.enum.map fun p =>
          RankedEntry.mk p.2.caseId (sqDist q p.2.emb) p.1
        ).insertionSort rankLE).map RankedEntry.insPos)
      ((index.enum.map fun p =>
          RankedEntry.mk p.2.caseId (sqDist q p.2.emb) p.1
        ).map RankedEntry.insPos) :=
    (List.perm_insertionSort rankLE _).map _
  have hbase :
      (index.enum.map fun p =>
          RankedEntry.mk p.2.caseId (sqDist q p.2.emb) p.1
        ).map RankedEntry.insPos = List.range index.length := by
    rw [List.map_map]
    have : (RankedEntry.insPos ∘ fun p : Nat × RefCase =>
        RankedEntry.mk p.2.caseId (sqDist q p.2.emb) p.1) = Prod.fst := by
      funext p
      rfl
    rw [this, List.enum_map_fst]
  have hnodup : List.Nodup
      (((index.enum.map fun p =>
          RankedEntry.mk p.2.caseId (sqDist q p.2.emb) p.1
        ).insertionSort rankLE).map RankedEntry.insPos) := by
    rw [hperm.nodup_iff, hbase]
    exact List.nodup_range _
  have hpw := (List.pairwise_map.mp hnodup).sublist (List.take_sublist k _)
  exact hpw

theorem searchIndex_props (index : List RefCase) (q : List ℚ)
    (k : Nat) :
    (∀ e ∈ searchIndex index q k, 0 ≤ e.dist) ∧
    (searchIndex index q k).Sorted (fun a b => a.dist ≤ b.dist) ∧
    (searchIndex index q k).Pairwise
      (fun a b => a.dist = b.dist → a.insPos < b.insPos) := by
  refine ⟨searchIndex_mem_dist index q k, ?_, ?_⟩
  · exact (searchIndex_sorted_rankLE index q k).imp (by
      intro a b hab
      rcases hab with h | ⟨h, _⟩
      · exact le_of_lt h
      · exact le_of_eq h)
  · have hand := (searchIndex_sorted_rankLE index q k).and
      (searchIndex_insPos_nodup index q k)
    exact hand.imp (by
      intro a b hab heq
      rcases hab with ⟨h | ⟨_, hle⟩, hne⟩
      · exact absurd heq (ne_of_lt h)
      · exact lt_of_le_of_ne hle hne)

/-! ### Crop, embedding cache and pipeline determinism (spec 4.2 steps 1 to 3) -/

/-- Modelled from the spec: an Image held by a session, with pixel and
geometry descriptors. -/
structure ImageData where
  imageId : String
  width : Nat
  height : Nat
  pixels : List (List Int)
deriving DecidableEq, Repr

/-- Modelled from the spec: step 1 of analyze_region, cropping the
bounding-box region from the image (pure, stateless, deterministic). -/
def cropRegion (img : ImageData) (x1 y1 x2 y2 : Nat) : List (List Int) :=
  ((img.pixels.drop y1).take (y2 - y1)).map fun row =>
    (row.drop x1).take (x2 - x1)

/-- Cache key: image id plus region-canonicalized key (the bounding box
coordinates). -/
abbrev CacheKey := String × Nat × Nat × Nat × Nat

/-- Modelled from the spec: the per-image embedding cache, keyed by
image id and canonicalized region, never invalidated time-based. -/
structure EngineState where
  cache : List (CacheKey × List ℚ)
deriving DecidableEq, Repr

/-- Lookup of a key in the embedding cache. -/
def cacheLookup : List (CacheKey × List ℚ) → CacheKey → Option (List ℚ)
  | [], _ => none
  | e :: rest, k => if e.1 = k then some e.2 else cacheLookup rest k

/-- Modelled from the spec: steps 1 to 3 of analyze_region — crop the
region, obtain the embedding through the cache (computing it with the
provider and storing it on a miss), and query the Vector Index for the
top_k nearest neighbors. The embedding provider is passed as a pure
function, its contract being a fixed-length numeric vector deterministic
for identical input. -/
def analyzeRegionPipe (embed : List (List Int) → List ℚ)
    (index : List RefCase) (img : ImageData) (x1 y1 x2 y2 k : Nat)
    (st : EngineState) : List RankedEntry × EngineState :=
  match cacheLookup st.cache (img.imageId, x1, y1, x2, y2) with
  | some v => (searchIndex index v k, st)
  | none =>
      let v := embed (cropRegion img x1 y1 x2 y2)
      (searchIndex index v k,
       ⟨((img.imageId, x1, y1, x2, y2), v) :: st.cache⟩)

/-- C3: two analyze_region runs with identical image, region and top_k
inputs against a static index return bit-identical rankings — the
second run, starting from the engine state the first run left behind,
produces the same ranked list, whatever the initial cache state. -/
theorem C3_analyze_region_deterministic
    (embed : List (List Int) → List ℚ) (index : List RefCase)
    (img : ImageData) (x1 y1 x2 y2 k : Nat) (st : EngineState) :
    (analyzeRegionPipe embed index img x1 y1 x2 y2 k
        (analyzeRegionPipe embed index img x1 y1 x2 y2 k st).2).1 =
    (analyzeRegionPipe embed index img x1 y1 x2 y2 k st).1 := by
  unfold analyzeRegionPipe
  cases h : cacheLookup st.cache (img.imageId, x1, y1, x2, y2) with
  | some v => simp [h]
  | none => simp [h, cacheLookup]

/-- C2: every ranked neighbor list returned by the analyze_region
pipeline has non-negative distances, is sorted ascending by distance
(each distance at most the next), and ties between equal distances are
broken by insertion order of the reference case in the index — the
order is fully determined by distance and insertion position, not by
any identifier hash. -/
theorem C2_ranked_results_sorted
    (embed : List (List Int) → List ℚ) (index : List RefCase)
    (img : ImageData) (x1 y1 x2 y2 k : Nat) (st : EngineState) :
    (∀ e ∈ (analyzeRegionPipe embed index img x1 y1 x2 y2 k st).1,
      0 ≤ e.dist) ∧
    (analyzeRegionPipe embed index img x1 y1 x2 y2 k st).1.Sorted
      (fun a b => a.dist ≤ b.dist) ∧
    (analyzeRegionPipe embed index img x1 y1 x2 y2 k st).1.Pairwise
      (fun a b => a.dist = b.dist → a.insPos < b.insPos) := by
  unfold analyzeRegionPipe
  cases h : cacheLookup st.cache (img.imageId, x1, y1, x2, y2) with
  | some v => exact searchIndex_props index v k
  | none => exact searchIndex_props index _ k

/-! ### Error taxonomy and degraded-provider fusion (spec 4.2 and 7) -/

/-- Modelled from the spec: the error taxonomy of section 7. -/
inductive ErrCode
  | NotFound
  | InvalidRegion
  | ModelUnavailable
  | IndexTimeout
  | ConcurrencyConflict
deriving DecidableEq, Repr

/-- Modelled from the spec: the analyze_region response of the
Retrieval Fusion Engine — the ranked neighbor list and the classifier
output as sibling fields, plus the degraded marker naming a failed
provider. -/
structure RagResponse where
  similar_cases : List RankedEntry
  classification : Option (List (String × ℚ))
  degraded : Option String
deriving DecidableEq, Repr

/-- Modelled from the spec: the failure semantics of analyze_region
(section 4.2). A provider outcome is none when the provider failed (a
timed-out call is treated as a provider failure). One failed provider
yields a partial result with the other field populated and an explicit
degraded marker; both failing makes the call fail with
ModelUnavailable. -/
def fuseOutcomes (index : List RefCase) (k : Nat)
    (embOut : Option (List ℚ)) (clsOut : Option (List (String × ℚ))) :
    Except ErrCode RagResponse :=
  match embOut, clsOut with
  | some e, some c => .ok ⟨searchIndex index e k, some c, none⟩
  | none, some c => .ok ⟨[], some c, some "embedding"⟩
  | some e, none => .ok ⟨searchIndex index e k, none, some "classifier"⟩
  | none, none => .error .ModelUnavailable

/-- C7: when exactly one provider fails, analyze_region still succeeds
with the other field populated and a degraded marker naming the failed
provider; the call fails if and only if both providers fail, and the
only error it fails with is ModelUnavailable. -/
theorem C7_degraded_partial_results (index : List RefCase) (k : Nat)
    (embOut : Option (List ℚ)) (clsOut : Option (List (String × ℚ))) :
    (∀ c, embOut = none → clsOut = some c →
      fuseOutcomes index k embOut clsOut =
        Except.ok ⟨[], some c, some "embedding"⟩) ∧
    (∀ e, embOut = some e → clsOut = none →
      fuseOutcomes index k embOut clsOut =
        Except.ok ⟨searchIndex index e k, none, some "classifier"⟩) ∧
    ((∃ err, fuseOutcomes index k embOut clsOut = Except.error err) ↔
      embOut = none ∧ clsOut = none) ∧
    (∀ err, fuseOutcomes index k embOut clsOut = Except.error err →
      err = ErrCode.ModelUnavailable) := by
  cases embOut <;> cases clsOut <;> simp [fuseOutcomes]

/-- Witness for C7: a concrete embedding-provider failure with the
classifier populated returns the degraded partial result. -/
theorem C7_degraded_partial_results_witness :
    fuseOutcomes [] 3 none (some [("Pneumonia", 9 / 10)]) =
      Except.ok ⟨[], some [("Pneumonia", 9 / 10)], some "embedding"⟩ :=
  (C7_degraded_partial_results [] 3 none
    (some [("Pneumonia", 9 / 10)])).1 _ rfl rfl

/-! ### Contract-level claims about src/contracts/mcp-client.ts -/

/-- Counterexample to C1: the declared AnalyzeRegionResponse record of
src/contracts/mcp-client.ts has no similar_cases field, no
classification field and no degraded field. -/
theorem C1_response_shape_counterexample :
    "similar_cases" ∉ analyzeRegionResponseFields.map TSField.name ∧
    "classification" ∉ analyzeRegionResponseFields.map TSField.name ∧
    "degraded" ∉ analyzeRegionResponseFields.map TSField.name := by
  decide

/-- C1 (amended): the declared analyze_region response record consists
of exactly the five optional fields description, segmentation,
measurements, annotation_id and confidence — it carries no
similar_cases array, classification field or degraded marker, and the
declared request carries question and actions but no top_k field. -/
theorem C1_declared_response_shape :
    analyzeRegionResponseFields.map TSField.name =
      ["description", "segmentation", "measurements", "annotation_id",
       "confidence"] ∧
    (∀ f ∈ analyzeRegionResponseFields, f.optional = true) ∧
    "top_k" ∉ analyzeRegionRequestFields.map TSField.name := by
  decide

/-- Counterexample to C9: the declared error contract MCPError of
src/contracts/mcp-client.ts has no status field and no error_code
field, and its code field is an unconstrained string rather than a
value of the five-element taxonomy. -/
theorem C9_error_envelope_counterexample :
    "status" ∉ mcpErrorFields.map TSField.name ∧
    "error_code" ∉ mcpErrorFields.map TSField.name ∧
    (∃ f ∈ mcpErrorFields, f.name = "code" ∧ f.ty = "string") := by
  decide

/-- C9 (amended): the only structured error envelope declared in the
repository contracts is MCPError, with required string fields code and
message and an optional details field; no status field and no taxonomy
restriction on the code string is declared. -/
theorem C9_declared_error_envelope :
    mcpErrorFields =
      [⟨"code", "string", false⟩, ⟨"message", "string", false⟩,
       ⟨"details", "Record<string, any>", true⟩] ∧
    "status" ∉ mcpErrorFields.map TSField.name := by
  decide

/-- C10: the public MCPClient contract exposes a deleteAnnotation
method taking a session id and an annotation id and resolving with no
return value, although no such operation appears in the spec's
tool-call surface. -/
theorem C10_delete_operation_exposed :
    (∃ m ∈ mcpClientMethods, m.name = "deleteAnnotation" ∧
      m.params.map (fun p => (p.name, p.ty)) =
        [("sessionId", "string"), ("annotationId", "string")] ∧
      m.ret = "Promise<void>") ∧
    "deleteAnnotation" ∉ specToolSurface ∧
    "delete_annotation" ∉ specToolSurface := by
  decide

/-! ### Session Store (spec sections 3 and 4.1)

The Session Store implementation is absent from the repository; the
following definitions are modelled from the spec text of sections 3,
4.1 and 7. Per-session writes serialize under the per-session writer
lock, so the store is modelled as a sequential state machine over
arbitrary operation interleavings. -/

/-- Modelled from the spec: a Region value — a typed geometric selector
always carrying a coordinate frame. -/
structure RegionV where
  rtype : String
  coords : List ℚ
  format : String
deriving DecidableEq, Repr

/-- Modelled from the spec: a Session record owned by the Session
Store, with its ordered Image references and current-image pointer. -/
structure SessionRec where
  sid : String
  images : List String
  currentImage : Option String
  closed : Bool
deriving DecidableEq, Repr

/-- Modelled from the spec: the caller-supplied part of an Annotation
passed to record_annotation. -/
structure AnnotDraft where
  region : RegionV
  label : String
  source : String
  note : String
deriving DecidableEq, Repr

/-- Modelled from the spec: a stored Annotation record. The superseded
flag marks records replaced by a later edit (edits create a new record,
preserving audit history). -/
structure AnnotRec where
  aid : Nat
  sessionOf : String
  imageOf : String
  region : RegionV
  label : String
  source : String
  note : String
  visible : Bool
  superseded : Bool
  createdAt : Nat
deriving DecidableEq, Repr

/-- Modelled from the spec: the authoritative Session Store state. -/
structure StoreState where
  sessions : List SessionRec
  annots : List AnnotRec
  nextSession : Nat
  nextAnnot : Nat
  clock : Nat
deriving DecidableEq, Repr

/-- The empty initial store. -/
def emptyStore : StoreState := ⟨[], [], 0, 0, 0⟩

/-- Resolve a session id in the store. -/
def findSession (st : StoreState) (sid : String) : Option SessionRec :=
  st.sessions.find? fun s => s.sid == sid

/-- Resolve an existing annotation id in the store. -/
def findAnnot (st : StoreState) (aid : Nat) : Option AnnotRec :=
  st.annots.find? fun a => a.aid == aid

/-- Modelled from the spec: create_session — always succeeds,
allocates a fresh unique identifier. -/
def create_session (st : StoreState) : String × StoreState :=
  let sid := "s" ++ toString st.nextSession
  (sid,
   { st with
      sessions := st.sessions ++ [⟨sid, [], none, false⟩],
      nextSession := st.nextSession + 1,
      clock := st.clock + 1 })

/-- Modelled from the spec: add_image — fails with NotFound if the
session is unknown or closed; appends the Image and sets it as the
current image. -/
def add_image (st : StoreState) (sid imgId : String) :
    Except ErrCode StoreState :=
  match findSession st sid with
  | none => .error .NotFound
  | some s =>
      if s.closed then .error .NotFound
      else
        .ok { st with
          sessions := st.sessions.map fun x =>
            if x.sid == sid then
              { x with images := x.images ++ [imgId],
                       currentImage := some imgId }
            else x,
          clock := st.clock + 1 }

/-- Modelled from the spec: record_annotation — fails with NotFound on
a session/image mismatch (enforcing the ownership invariant), otherwise
assigns identifier and timestamp and appends the Annotation. -/
def record_annot (st : StoreState) (sid imgId : String) (d : AnnotDraft) :
    Except ErrCode (AnnotRec × StoreState) :=
  match findSession st sid with
  | none => .error .NotFound
  | some s =>
      if imgId ∈ s.images then
        let a : AnnotRec :=
          ⟨st.nextAnnot, sid, imgId, d.region, d.label, d.source, d.note,
           true, false, st.clock⟩
        .ok (a,
          { st with
             annots := st.annots ++ [a],
             nextAnnot := st.nextAnnot + 1,
             clock := st.clock + 1 })
      else .error .NotFound

/-- Modelled from the spec: list_annotations — annotations of a
session, optionally restricted to one image, in insertion order. -/
def list_annots (st : StoreState) (sid : String) (imgId : Option String) :
    List AnnotRec :=
  st.annots.filter fun a =>
    a.sessionOf == sid &&
      match imgId with
      | none => true
      | some i => a.imageOf == i

/-- Modelled from the spec: an annotation edit — only label, note and
display flags are mutable; the edit creates a new Annotation that
supersedes the old one (which stays readable as history), and an edit
targeting an already superseded record fails with
ConcurrencyConflict. -/
def edit_annot (st : StoreState) (aid : Nat)
    (newLabel newNote : String) (newVisible : Bool) :
    Except ErrCode (AnnotRec × StoreState) :=
  match findAnnot st aid with
  | none => .error .NotFound
  | some a =>
      if a.superseded then .error .ConcurrencyConflict
      else
        let a' : AnnotRec :=
          { a with
             aid := st.nextAnnot,
             label := newLabel,
             note := newNote,
             visible := newVisible,
             superseded := false,
             createdAt := st.clock }
        .ok (a',
          { st with
             annots :=
               (st.annots.map fun x =>
                 if x.aid == aid then { x with superseded := true }
                 else x) ++ [a'],
             nextAnnot := st.nextAnnot + 1,
             clock := st.clock + 1 })

/-- One Session Store mutation; a failed call leaves the state
unchanged (the error envelope is returned without mutating). -/
inductive StoreOp
  | createSession
  | addImage (sid imgId : String)
  | recordAnnot (sid imgId : String) (d : AnnotDraft)
  | editAnnot (aid : Nat) (lbl note : String) (vis : Bool)
deriving Repr

/-- Apply one operation to the store. -/
def applyOp (st : StoreState) : StoreOp → StoreState
  | .createSession => (create_session st).2
  | .addImage sid imgId =>
      match add_image st sid imgId with
      | .ok st' => st'
      | .error _ => st
  | .recordAnnot sid imgId d =>
      match record_annot st sid imgId d with
      | .ok (_, st') => st'
      | .error _ => st
  | .editAnnot aid l n v =>
      match edit_annot st aid l n v with
      | .ok (_, st') => st'
      | .error _ => st

/-- Run a sequence of operations from the empty store. -/
def runOps (ops : List StoreOp) : StoreState :=
  ops.foldl applyOp emptyStore

/-- The cross-session ownership invariant: every Annotation references
an Image owned by the Session it is filed under. -/
def ownershipInv (st : StoreState) : Prop :=
  ∀ a ∈ st.annots, ∃ s ∈ st.sessions,
    s.sid = a.sessionOf ∧ a.imageOf ∈ s.images

instance (st : StoreState) : Decidable (ownershipInv st) := by
  unfold ownershipInv
  infer_instance

/-- Whether the named session exists and owns the named image. -/
def sessionOwns (st : StoreState) (sid imgId : String) : Bool :=
  match findSession st sid with
  | none => false
  | some s => decide (imgId ∈ s.images)

theorem ownershipInv_empty : ownershipInv emptyStore := by
  intro a ha
  simp [emptyStore] at ha

theorem ownershipInv_create (st : StoreState) (h : ownershipInv st) :
    ownershipInv (create_session st).2 := by
  intro a ha
  obtain ⟨s, hmem, hsid, himg⟩ := h a ha
  exact ⟨s, List.mem_append_left _ hmem, hsid, himg⟩

theorem ownershipInv_add_image (st : StoreState) (sid imgId : String)
    (st' : StoreState) (h : ownershipInv st)
    (hok : add_image st sid imgId = Except.ok st') : ownershipInv st' := by
  unfold add_image at hok
  split at hok
  · exact absurd hok (by simp)
  · rename_i s hf
    split at hok
    · exact absurd hok (by simp)
    · rename_i hcl
      rw [Except.ok.injEq] at hok
      subst hok
      intro a ha
      obtain ⟨s0, hmem, hsid, himg⟩ := h a ha
      refine ⟨_, List.mem_map_of_mem _ hmem, ?_⟩
      by_cases hc : (s0.sid == sid) = true
      · simp only [hc, if_true]
        exact ⟨hsid, List.mem_append_left _ himg⟩
      · simp only [hc, if_false]
        exact ⟨hsid, himg⟩

theorem ownershipInv_record (st : StoreState) (sid imgId : String)
    (d : AnnotDraft) (a : AnnotRec) (st' : StoreState)
    (h : ownershipInv st)
    (hok : record_annot st sid imgId d = Except.ok (a, st')) :
    ownershipInv st' := by
  unfold record_annot at hok
  split at hok
  · exact absurd hok (by simp)
  · rename_i s hf
    split at hok
    · rename_i himg
      simp only [Except.ok.injEq, Prod.mk.injEq] at hok
      obtain ⟨-, hok⟩ := hok
      subst hok
      intro x hx
      rcases List.mem_append.mp hx with hx | hx
      · obtain ⟨s0, hmem, hsid, hi⟩ := h x hx
        exact ⟨s0, hmem, hsid, hi⟩
      · have hxa : x = ⟨st.nextAnnot, sid, imgId, d.region, d.label,
            d.source, d.note, true, false, st.clock⟩ := by
          simpa using hx
        subst hxa
        refine ⟨s, List.mem_of_find?_eq_some hf, ?_, himg⟩
        have := List.find?_some hf
        simpa using this
    · exact absurd hok (by simp)

theorem ownershipInv_edit (st : StoreState) (aid : Nat)
    (lbl note : String) (vis : Bool) (a' : AnnotRec) (st' : StoreState)
    (h : ownershipInv st)
    (hok : edit_annot st aid lbl note vis = Except.ok (a', st')) :
    ownershipInv st' := by
  unfold edit_annot at hok
  split at hok
  · exact absurd hok (by simp)
  · rename_i a hf
    split at hok
    · exact absurd hok (by simp)
    · rename_i hs
      simp only [Except.ok.injEq, Prod.mk.injEq] at hok
      obtain ⟨-, hok⟩ := hok
      subst hok
      intro x hx
      rcases List.mem_append.mp hx with hx | hx
      · obtain ⟨y, hy, hxy⟩ := List.mem_map.mp hx
        obtain ⟨s0, hmem, hsid, hi⟩ := h y hy
        refine ⟨s0, hmem, ?_, ?_⟩
        · rw [← hxy]
          by_cases hc : (y.aid == aid) = true
          · simp only [hc, if_true]; exact hsid
          · simp only [hc, if_false]; exact hsid
        · rw [← hxy]
          by_cases hc : (y.aid == aid) = true
          · simp only [hc, if_true]; exact hi
          · simp only [hc, if_false]; exact hi
      · have hxa : x = ⟨st.nextAnnot, a.sessionOf, a.imageOf, a.region,
            lbl, a.source, note, vis, false, st.clock⟩ := by
          simpa using hx
        subst hxa
        obtain ⟨s0, hmem, hsid, hi⟩ :=
          h a (List.mem_of_find?_eq_some hf)
        exact ⟨s0, hmem, hsid, hi⟩

theorem ownershipInv_applyOp (st : StoreState) (op : StoreOp)
    (h : ownershipInv st) : ownershipInv (applyOp st op) := by
  cases op with
  | createSession => exact ownershipInv_create st h
  | addImage sid imgId =>
      show ownershipInv (match add_image st sid imgId with
        | .ok st2 => st2
        | .error _ => st)
      cases hok : add_image st sid imgId with
      | ok st2 => exact ownershipInv_add_image st sid imgId st2 h hok
      | error e => exact h
  | recordAnnot sid imgId d =>
      show ownershipInv (match record_annot st sid imgId d with
        | .ok (_, st2) => st2
        | .error _ => st)
      cases hok : record_annot st sid imgId d with
      | ok p =>
          cases p with
          | mk a st2 => exact ownershipInv_record st sid imgId d a st2 h hok
      | error e => exact h
  | editAnnot aid l n v =>
      show ownershipInv (match edit_annot st aid l n v with
        | .ok (_, st2) => st2
        | .error _ => st)
      cases hok : edit_annot st aid l n v with
      | ok p =>
          cases p with
          | mk a st2 => exact ownershipInv_edit st aid l n v a st2 h hok
      | error e => exact h

theorem ownershipInv_foldl (ops : List StoreOp) (st : StoreState)
    (h : ownershipInv st) : ownershipInv (ops.foldl applyOp st) := by
  induction ops generalizing st with
  | nil => exact h
  | cons op ops ih => exact ih _ (ownershipInv_applyOp st op h)

theorem record_annot_notFound (st : StoreState) (sid imgId : String)
    (d : AnnotDraft) (h : sessionOwns st sid imgId = false) :
    record_annot st sid imgId d = Except.error ErrCode.NotFound := by
  unfold sessionOwns at h
  unfold record_annot
  cases hf : findSession st sid with
  | none => rfl
  | some s =>
      rw [hf] at h
      have : imgId ∉ s.images := by simpa using h
      simp [this]

/-- C4: the cross-session ownership invariant — every Annotation
recorded under a session references only Images owned by that session
— holds in every store reachable by any operation sequence, and
record_annotation fails with NotFound whenever the named image is not
owned by the named session. -/
theorem C4_ownership_invariant :
    (∀ ops : List StoreOp, ownershipInv (runOps ops)) ∧
    (∀ (st : StoreState) (sid imgId : String) (d : AnnotDraft),
      sessionOwns st sid imgId = false →
      record_annot st sid imgId d = Except.error ErrCode.NotFound) :=
  ⟨fun ops => ownershipInv_foldl ops emptyStore ownershipInv_empty,
   record_annot_notFound⟩

/-- Witness for C4: a concrete run establishing the invariant, and a
concrete mismatching record_annotation call answered with NotFound. -/
theorem C4_ownership_invariant_witness :
    ownershipInv (runOps
      [StoreOp.createSession, StoreOp.addImage "s0" "i0",
       StoreOp.recordAnnot "s0" "i0"
         ⟨⟨"bbox", [1, 2, 3, 4], "pixel"⟩, "lesion", "ai", ""⟩]) ∧
    record_annot emptyStore "missing" "i0"
        ⟨⟨"bbox", [1, 2, 3, 4], "pixel"⟩, "lesion", "ai", ""⟩ =
      Except.error ErrCode.NotFound :=
  ⟨C4_ownership_invariant.1 _,
   C4_ownership_invariant.2 emptyStore "missing" "i0" _ (by decide)⟩

/-- C5: read-after-write round trip — a successful create_annotation
(record_annotation) stores the caller's region verbatim, and a later
list_annotations returns the stored region coordinates unchanged: the
read is exactly the previously listed regions followed by the region
just written, with no rescaling between write and read. -/
theorem C5_region_round_trip (st : StoreState) (sid imgId : String)
    (d : AnnotDraft) (a : AnnotRec) (st' : StoreState)
    (h : record_annot st sid imgId d = Except.ok (a, st')) :
    (list_annots st' sid (some imgId)).map AnnotRec.region =
      (list_annots st sid (some imgId)).map AnnotRec.region ++
        [d.region] ∧
    a.region = d.region := by
  unfold record_annot at h
  split at h
  · exact absurd h (by simp)
  · rename_i s hf
    split at h
    · rename_i himg
      simp only [Except.ok.injEq, Prod.mk.injEq] at h
      obtain ⟨ha, hst⟩ := h
      subst hst
      constructor
      · unfold list_annots
        simp [List.filter_append]
      · rw [← ha]
    · exact absurd h (by simp)

/-- Witness for C5: a concrete relative-frame region written through
record_annotation is returned unchanged by list_annotations. -/
theorem C5_region_round_trip_witness :
    (list_annots
        (StoreState.mk [⟨"s0", ["i0"], some "i0", false⟩]
          [⟨0, "s0", "i0", ⟨"bbox", [1 / 10, 1 / 10, 3 / 10, 3 / 10],
              "relative"⟩, "lesion", "user", "", true, false, 0⟩] 1 1 1)
        "s0" (some "i0")).map AnnotRec.region =
      (list_annots
        (StoreState.mk [⟨"s0", ["i0"], some "i0", false⟩] [] 1 0 0)
        "s0" (some "i0")).map AnnotRec.region ++
        [RegionV.mk "bbox" [1 / 10, 1 / 10, 3 / 10, 3 / 10] "relative"] ∧
    (AnnotRec.mk 0 "s0" "i0"
        ⟨"bbox", [1 / 10, 1 / 10, 3 / 10, 3 / 10], "relative"⟩
        "lesion" "user" "" true false 0).region =
      (AnnotDraft.mk ⟨"bbox", [1 / 10, 1 / 10, 3 / 10, 3 / 10],
        "relative"⟩ "lesion" "user" "").region :=
  C5_region_round_trip
    (StoreState.mk [⟨"s0", ["i0"], some "i0", false⟩] [] 1 0 0)
    "s0" "i0"
    (AnnotDraft.mk ⟨"bbox", [1 / 10, 1 / 10, 3 / 10, 3 / 10],
      "relative"⟩ "lesion" "user" "")
    (AnnotRec.mk 0 "s0" "i0"
      ⟨"bbox", [1 / 10, 1 / 10, 3 / 10, 3 / 10], "relative"⟩
      "lesion" "user" "" true false 0)
    (StoreState.mk [⟨"s0", ["i0"], some "i0", false⟩]
      [⟨0, "s0", "i0", ⟨"bbox", [1 / 10, 1 / 10, 3 / 10, 3 / 10],
          "relative"⟩, "lesion", "user", "", true, false, 0⟩] 1 1 1)
    (by rfl)

theorem findAnnot_after_edit (annots : List AnnotRec) (aid : Nat)
    (a : AnnotRec) (rest : List AnnotRec)
    (hf : annots.find? (fun x => x.aid == aid) = some a) :
    ((annots.map fun x =>
        if x.aid == aid then { x with superseded := true } else x) ++
      rest).find? (fun x => x.aid == aid) =
      some { a with superseded := true } := by
  rw [List.find?_append]
  have hpf : ((fun x : AnnotRec => x.aid == aid) ∘ fun x =>
      if x.aid == aid then { x with superseded := true } else x) =
      fun x : AnnotRec => x.aid == aid := by
    funext x
    by_cases hc : (x.aid == aid) = true
    · simp [Function.comp, hc]
    · simp [Function.comp, hc]
  rw [List.find?_map, hpf, hf]
  have hpa : (a.aid == aid) = true :=
    @List.find?_some _ (fun x : AnnotRec => x.aid == aid) a annots hf
  have haid : a.aid = aid := by simpa using hpa
  simp [haid]

/-- C8: a successful annotation edit creates a new record with the
geometry (region), source, image and session of the old one unchanged
— only label, note and the display flag differ — while the prior
version remains in the store marked superseded (readable history); and
any further edit targeting the same, now superseded, record fails with
ConcurrencyConflict and leaves the state of the first edit intact. -/
theorem C8_edit_as_new_record (st : StoreState) (aid : Nat)
    (lbl n2 : String) (vis : Bool) (a' : AnnotRec) (st' : StoreState)
    (h : edit_annot st aid lbl n2 vis = Except.ok (a', st')) :
    (∃ a, findAnnot st aid = some a ∧ a.superseded = false ∧
      a'.region = a.region ∧ a'.source = a.source ∧
      a'.imageOf = a.imageOf ∧ a'.sessionOf = a.sessionOf ∧
      { a with superseded := true } ∈ st'.annots) ∧
    (∀ l2 n3 v2,
      edit_annot st' aid l2 n3 v2 =
        Except.error ErrCode.ConcurrencyConflict ∧
      applyOp st' (StoreOp.editAnnot aid l2 n3 v2) = st') := by
  unfold edit_annot at h
  split at h
  · exact absurd h (by simp)
  · rename_i a hf
    split at h
    · exact absurd h (by simp)
    · rename_i hs
      simp only [Except.ok.injEq, Prod.mk.injEq] at h
      obtain ⟨ha', hst⟩ := h
      subst hst
      subst ha'
      have hf' : st.annots.find? (fun x => x.aid == aid) = some a := hf
      have hpa : (a.aid == aid) = true :=
        @List.find?_some _ (fun x : AnnotRec => x.aid == aid) a st.annots hf'
      have hamem : a ∈ st.annots := List.mem_of_find?_eq_some hf'
      constructor
      · refine ⟨a, hf, Bool.eq_false_iff.mpr hs, rfl, rfl, rfl, rfl, ?_⟩
        apply List.mem_append_left
        have hm := List.mem_map_of_mem (fun x =>
          if x.aid == aid then { x with superseded := true } else x) hamem
        simpa [hpa] using hm
      · intro l2 n3 v2
        have hfind2 := findAnnot_after_edit st.annots aid a
          [⟨st.nextAnnot, a.sessionOf, a.imageOf, a.region, lbl,
            a.source, n2, vis, false, st.clock⟩] hf'
        have hconf : edit_annot
            { st with
               annots := (st.annots.map fun x =>
                   if x.aid == aid then { x with superseded := true }
                   else x) ++
                 [⟨st.nextAnnot, a.sessionOf, a.imageOf, a.region, lbl,
                   a.source, n2, vis, false, st.clock⟩],
               nextAnnot := st.nextAnnot + 1,
               clock := st.clock + 1 } aid l2 n3 v2 =
            Except.error ErrCode.ConcurrencyConflict := by
          unfold edit_annot findAnnot
          rw [hfind2]
          simp
        refine ⟨hconf, ?_⟩
        show (match edit_annot _ aid l2 n3 v2 with
          | .ok (_, s2) => s2
          | .error _ => _) = _
        rw [hconf]

/-- Witness for C8: in a concrete store produced by a first successful
edit, a second edit targeting the superseded record is refused with
ConcurrencyConflict. -/
theorem C8_edit_as_new_record_witness :
    edit_annot
      (StoreState.mk [⟨"s0", ["i0"], some "i0", false⟩]
        [⟨0, "s0", "i0", ⟨"bbox", [1, 2, 3, 4], "pixel"⟩, "old", "ai",
          "", true, true, 0⟩,
         ⟨1, "s0", "i0", ⟨"bbox", [1, 2, 3, 4], "pixel"⟩, "new", "ai",
          "nn", true, false, 1⟩] 1 2 2)
      0 "x" "y" false =
      Except.error ErrCode.ConcurrencyConflict :=
  ((C8_edit_as_new_record
    (StoreState.mk [⟨"s0", ["i0"], some "i0", false⟩]
      [⟨0, "s0", "i0", ⟨"bbox", [1, 2, 3, 4], "pixel"⟩, "old", "ai",
        "", true, false, 0⟩] 1 1 1)
    0 "new" "nn" true
    (AnnotRec.mk 1 "s0" "i0" ⟨"bbox", [1, 2, 3, 4], "pixel"⟩ "new"
      "ai" "nn" true false 1)
    (StoreState.mk [⟨"s0", ["i0"], some "i0", false⟩]
      [⟨0, "s0", "i0", ⟨"bbox", [1, 2, 3, 4], "pixel"⟩, "old", "ai",
        "", true, true, 0⟩,
       ⟨1, "s0", "i0", ⟨"bbox", [1, 2, 3, 4], "pixel"⟩, "new", "ai",
        "nn", true, false, 1⟩] 1 2 2)
    (by rfl)).2 "x" "y" false).1

/-! ### Canvas Sync Coordinator (spec sections 3, 4.3 and 5)

The Canvas Sync Coordinator implementation is absent from the
repository; the following definitions are modelled from the spec text.
Per-session writes serialize (section 4.1), so concurrent enqueues are
modelled as an arbitrary interleaving of enqueue operations across
sessions. -/

/-- Modelled from the spec: a CanvasEvent — a strictly ordered record
of a state change scoped to a session, carrying the per-session
sequence number assigned by the coordinator, its sole writer. -/
structure CanvasEv where
  session : String
  seq : Nat
  action : String
deriving DecidableEq, Repr

/-- Modelled from the spec: the coordinator state — the ordered event
log and the per-session next-sequence-number counters. -/
structure SyncState where
  events : List CanvasEv
  counters : List (String × Nat)
deriving DecidableEq, Repr

/-- The next sequence number for a session (0 when never seen). -/
def counterOf (l : List (String × Nat)) (sid : String) : Nat :=
  match l.find? fun e => e.1 == sid with
  | none => 0
  | some e => e.2

/-- Advance the per-session counter of one session. -/
def bumpCounter : List (String × Nat) → String → List (String × Nat)
  | [], sid => [(sid, 1)]
  | e :: rest, sid =>
      if e.1 == sid then (e.1, e.2 + 1) :: rest
      else e :: bumpCounter rest sid

/-- Modelled from the spec: enqueue a CanvasEvent for a session,
assigning the next sequence number of that session. -/
def enqueueEvent (st : SyncState) (sid action : String) : SyncState :=
  ⟨st.events ++ [⟨sid, counterOf st.counters sid, action⟩],
   bumpCounter st.counters sid⟩

/-- Run an arbitrary interleaving of enqueue requests (session id,
action) from the empty coordinator state. -/
def runEnqueues (reqs : List (String × String)) : SyncState :=
  reqs.foldl (fun st r => enqueueEvent st r.1 r.2) ⟨[], []⟩

theorem counterOf_bump_self (l : List (String × Nat)) (sid : String) :
    counterOf (bumpCounter l sid) sid = counterOf l sid + 1 := by
  induction l with
  | nil => simp [bumpCounter, counterOf]
  | cons e rest ih =>
      by_cases hc : (e.1 == sid) = true
      · simp [bumpCounter, counterOf, hc]
      · simp only [bumpCounter, hc, if_false]
        unfold counterOf
        simp only [List.find?]
        rw [show (e.1 == sid) = false from by simpa using hc]
        exact ih

theorem counterOf_bump_other (l : List (String × Nat)) (sid sid' : String)
    (h : sid' ≠ sid) :
    counterOf (bumpCounter l sid) sid' = counterOf l sid' := by
  have hss : (sid == sid') = false := by
    simp [BEq.beq]
    exact fun heq => absurd heq.symm h
  induction l with
  | nil => simp [bumpCounter, counterOf, hss]
  | cons e rest ih =>
      by_cases hc : (e.1 == sid) = true
      · have he1 : e.1 = sid := by simpa using hc
        simp only [bumpCounter, hc, if_true]
        unfold counterOf
        simp only [List.find?]
        rw [show ((e.1, e.2 + 1).1 == sid') = false from by
          simpa [he1] using hss]
      · simp only [bumpCounter, hc, if_false]
        unfold counterOf
        simp only [List.find?]
        cases hc' : (e.1 == sid') with
        | true => rfl
        | false => exact ih

/-- The coordinator invariant: for every session, the sequence numbers
of its events, in log order, are exactly 0, 1, ..., counter - 1. -/
def seqInv (st : SyncState) : Prop :=
  ∀ sid, ((st.events.filter fun e => e.session == sid).map CanvasEv.seq)
      = List.range (counterOf st.counters sid)

theorem seqInv_empty : seqInv ⟨[], []⟩ := by
  intro sid
  simp [counterOf]

theorem seqInv_enqueue (st : SyncState) (sid action : String)
    (h : seqInv st) : seqInv (enqueueEvent st sid action) := by
  intro sid'
  unfold enqueueEvent
  simp only [List.filter_append, List.map_append]
  by_cases hc : sid = sid'
  · subst hc
    rw [counterOf_bump_self]
    rw [List.range_succ]
    rw [h sid]
    simp
  · rw [counterOf_bump_other st.counters sid sid' (fun he => hc he.symm)]
    rw [← h sid']
    have : ([(⟨sid, counterOf st.counters sid, action⟩ : CanvasEv)].filter
        fun e => e.session == sid') = [] := by
      simp
      exact hc
    rw [this]
    simp

theorem seqInv_foldl (reqs : List (String × String)) (st : SyncState)
    (h : seqInv st) :
    seqInv (reqs.foldl (fun s r => enqueueEvent s r.1 r.2) st) := by
  induction reqs generalizing st with
  | nil => exact h
  | cons r reqs ih => exact ih _ (seqInv_enqueue st r.1 r.2 h)

/-- C6: for every session, after any interleaving of enqueues across
sessions, the sequence numbers of that session's CanvasEvents are
exactly 0, 1, ..., n-1 in log order — strictly increasing, no gaps,
and no sequence number assigned twice. -/
theorem C6_canvas_event_sequence (reqs : List (String × String))
    (sid : String) :
    (((runEnqueues reqs).events.filter fun e => e.session == sid).map
        CanvasEv.seq) =
      List.range
        (((runEnqueues reqs).events.filter fun e =>
            e.session == sid).length) ∧
    (((runEnqueues reqs).events.filter fun e => e.session == sid).map
        CanvasEv.seq).Pairwise (· < ·) := by
  have h := seqInv_foldl reqs ⟨[], []⟩ seqInv_empty sid
  have hlen : ((runEnqueues reqs).events.filter fun e =>
      e.session == sid).length = counterOf (runEnqueues reqs).counters sid := by
    rw [← List.length_map _ CanvasEv.seq]
    rw [show (((runEnqueues reqs).events.filter fun e =>
        e.session == sid).map CanvasEv.seq) =
        List.range (counterOf (runEnqueues reqs).counters sid) from h]
    exact List.length_range _
  constructor
  · rw [hlen]
    exact h
  · rw [show (((runEnqueues reqs).events.filter fun e =>
        e.session == sid).map CanvasEv.seq) =
        List.range (counterOf (runEnqueues reqs).counters sid) from h]
    exact List.pairwise_lt_range _

end MedVision
